import Mathlib

/-!
# Verification of the Gitr core: reconciliation and fork synchronization

This file gives a shallow embedding, in Lean 4, of the core algorithms of the
Gitr repository:

* the URL normalization and local/remote reconciliation algorithm
  (crates/gitr-discover/src/reconcile.rs),
* the local filesystem scanner's per-directory recording logic
  (crates/gitr-discover/src/scanner.rs),
* the per-repository fork synchronization state machine and its git
  operation wrappers (crates/gitr-sync/src/fork_sync.rs, git_ops.rs),
* the batch sync engine's result collection and its (intended) concurrency
  limiting (crates/gitr-sync/src/engine.rs).

Rust strings are modeled as `List Char` (or Lean `String`, which wraps a
`List Char`); byte positions coincide with character positions on the ASCII
fragment, which is where all the algorithms' control characters live.
External effects (the filesystem and git subprocesses) are modeled by an
explicit environment record supplying the outcome of each external call, and
the embedded state machine additionally returns the trace of git operations
it invoked, so that "operation X is never invoked" becomes a statement about
the returned trace.
-/

namespace Gitr

/-! ## URL normalization (reconcile.rs, `normalize_url`) -/

/-- ASCII lowercasing of one character, as Rust's `to_lowercase` acts on the
ASCII range (Unicode-specific case mappings are outside the alphabet used by
the algorithms modeled here). -/
def lowerChar (c : Char) : Char :=
  if 65 ≤ c.toNat ∧ c.toNat ≤ 90 then Char.ofNat (c.toNat + 32) else c

/-- Strip a leading scheme, trying the four candidates in source order and
stopping at the first that matches (the `for prefix in ... break` loop). -/
def stripScheme (l : List Char) : List Char :=
  if List.isPrefixOf "https://".data l then l.drop 8
  else if List.isPrefixOf "http://".data l then l.drop 7
  else if List.isPrefixOf "ssh://".data l then l.drop 6
  else if List.isPrefixOf "git://".data l then l.drop 6
  else l

/-- Strip a leading `user@` specifier: if an `@` occurs strictly before the
first `/` (or before the end when there is no `/`), drop everything up to and
including that `@`. -/
def stripUserAt (l : List Char) : List Char :=
  match l.findIdx? (fun c => c == '@') with
  | none => l
  | some atPos =>
    let slashPos := (l.findIdx? (fun c => c == '/')).getD l.length
    if atPos < slashPos then l.drop (atPos + 1) else l

/-- Rewrite scp-style `host:path` to `host/path`: if a `:` occurs and the
segment before the first `:` contains no `/`, replace that `:` by `/`. -/
def scpRewrite (l : List Char) : List Char :=
  match l.findIdx? (fun c => c == ':') with
  | none => l
  | some colonPos =>
    if '/' ∈ l.take colonPos then l
    else l.take colonPos ++ '/' :: l.drop (colonPos + 1)

/-- Strip one trailing `.git` suffix if present (`strip_suffix`). -/
def stripDotGit (l : List Char) : List Char :=
  if List.isSuffixOf ".git".data l then l.take (l.length - 4) else l

/-- Strip all trailing `/` characters (`trim_end_matches`). -/
def trimSlashes (l : List Char) : List Char :=
  (l.reverse.dropWhile (fun c => c == '/')).reverse

/-- `normalize_url` from reconcile.rs, on character lists: lowercase, strip
scheme, strip `user@`, rewrite scp-style colon, strip trailing `.git`, strip
trailing slashes. -/
def normalizeUrlChars (l : List Char) : List Char :=
  trimSlashes (stripDotGit (scpRewrite (stripUserAt (stripScheme (l.map lowerChar)))))

/-- `normalize_url` on Lean strings. -/
def normalize_url (s : String) : String :=
  String.mk (normalizeUrlChars s.data)

/-- Well-placed first colon: whenever `l` splits as a colon-free prefix `a`
followed by `':' :: b`, that prefix already contains a `/`.  This is the
invariant the scp-colon rewrite establishes and the later passes preserve; it
is what makes the scheme-stripping and colon-rewriting passes no-ops on an
already-normalized URL. -/
def ColonOk (l : List Char) : Prop :=
  ∀ a b : List Char, l = a ++ ':' :: b → ':' ∉ a → '/' ∈ a

/-! ## Data model for reconciliation (scanner.rs, gitr-host, reconcile.rs) -/

/-- A git remote parsed from a local repo's config (`ScannedRemote`). -/
structure ScannedRemote where
  name : String
  url : String
deriving Repr, DecidableEq

/-- A repo found on the local filesystem (`ScannedRepo`). -/
structure ScannedRepo where
  path : String
  remotes : List ScannedRemote
deriving Repr, DecidableEq

/-- A repository descriptor as returned by a hosting API (`RemoteRepo` from
gitr-host). Timestamps are modeled as opaque strings. -/
structure RemoteRepo where
  full_name : String
  owner : String
  name : String
  clone_url : String
  ssh_url : String
  default_branch : String
  is_fork : Bool
  upstream_full_name : Option String
  upstream_clone_url : Option String
  description : Option String
  is_private : Bool
  is_archived : Bool
  updated_at : Option String
deriving Repr, DecidableEq

/-- Classification of a repo during reconciliation (`RepoMatch`). -/
inductive RepoMatch where
  | Matched (loc : ScannedRepo) (remote : RemoteRepo)
  | LocalOnly (loc : ScannedRepo)
  | RemoteOnly (remote : RemoteRepo)
deriving Repr, DecidableEq

/-- Result of reconciling local and remote repos (`ReconcileResult`). -/
structure ReconcileResult where
  host_label : String
  matchesList : List RepoMatch
deriving Repr, DecidableEq

def ReconcileResult.matched_count (r : ReconcileResult) : Nat :=
  r.matchesList.countP (fun m => match m with | RepoMatch.Matched _ _ => true | _ => false)

def ReconcileResult.local_only_count (r : ReconcileResult) : Nat :=
  r.matchesList.countP (fun m => match m with | RepoMatch.LocalOnly _ => true | _ => false)

def ReconcileResult.remote_only_count (r : ReconcileResult) : Nat :=
  r.matchesList.countP (fun m => match m with | RepoMatch.RemoteOnly _ => true | _ => false)

/-- `urls_match` from reconcile.rs: some local remote URL normalizes equal to
the remote repo's clone URL or SSH URL. -/
def urls_match (lr : ScannedRepo) (remote : RemoteRepo) : Bool :=
  lr.remotes.any (fun sr =>
    normalize_url sr.url == normalize_url remote.clone_url
      || normalize_url sr.url == normalize_url remote.ssh_url)

/-- The inner `for (idx, remote_repo) in remote.iter().enumerate()` loop of
`reconcile`, which breaks at the first matching remote, returning its index
and the remote itself. -/
def findFirstMatch (lr : ScannedRepo) : List RemoteRepo → Nat → Option (Nat × RemoteRepo)
  | [], _ => none
  | r :: rs, i => if urls_match lr r then some (i, r) else findFirstMatch lr rs (i + 1)

/-- The body of the outer `for local_repo in local` loop of `reconcile`: push
`Matched` and record the consumed index, or push `LocalOnly`. -/
def reconcileStep (remote : List RemoteRepo) (acc : List RepoMatch × List Nat)
    (lr : ScannedRepo) : List RepoMatch × List Nat :=
  match findFirstMatch lr remote 0 with
  | some (idx, rr) => (acc.1 ++ [RepoMatch.Matched lr rr], acc.2.insert idx)
  | none => (acc.1 ++ [RepoMatch.LocalOnly lr], acc.2)

/-- `reconcile` from reconcile.rs. The `HashSet` of consumed remote indices is
modeled as a duplicate-free list with set-insertion. -/
def reconcile (locals : List ScannedRepo) (remote : List RemoteRepo)
    (host_label : String) : ReconcileResult :=
  let p := locals.foldl (reconcileStep remote) ([], [])
  let all := p.1 ++ remote.enum.filterMap (fun ir =>
    if ir.1 ∈ p.2 then none else some (RepoMatch.RemoteOnly ir.2))
  { host_label := host_label, matchesList := all }

/-! Closed-form description of `reconcile`, proved equal to the loop below. -/

/-- How one local repository is classified, independently of all others. -/
def classifyLocal (remote : List RemoteRepo) (lr : ScannedRepo) : RepoMatch :=
  match findFirstMatch lr remote 0 with
  | some (_, rr) => RepoMatch.Matched lr rr
  | none => RepoMatch.LocalOnly lr

/-- The index-recording effect of one outer-loop iteration, in isolation. -/
def consumeStep (remote : List RemoteRepo) (s : List Nat) (lr : ScannedRepo) : List Nat :=
  match findFirstMatch lr remote 0 with
  | some (idx, _) => s.insert idx
  | none => s

/-- The set (as a duplicate-free list) of remote indices consumed by the
first-match pass over the locals. -/
def consumedIndices (locals : List ScannedRepo) (remote : List RemoteRepo) : List Nat :=
  locals.foldl (consumeStep remote) []

/-- The trailing `RemoteOnly` entries: one per remote whose index was never
consumed. -/
def remoteOnlyEntries (locals : List ScannedRepo) (remote : List RemoteRepo) : List RepoMatch :=
  remote.enum.filterMap (fun ir =>
    if ir.1 ∈ consumedIndices locals remote then none else some (RepoMatch.RemoteOnly ir.2))

/-! ## Local scanner (scanner.rs)

The directory walk itself (walkdir with `max_depth`, the denylist, not
following symlinks) enumerates candidate directories; the logic under
verification is the per-directory recording decision, so the walk is modeled
by the caller-supplied list of visited entries, each carrying the facts the
loop body inspects: whether the entry is a directory, whether it contains a
`.git` subdirectory, and the state of `.git/config`. -/

/-- The state of a `.git/config` file: absent (`config_path.exists()` is
false), present but unreadable (`read_to_string` returns `Err`), or readable
with the given lines (Rust's `content.lines()`). -/
inductive ConfigFile where
  | missing
  | unreadable
  | readable (lines : List String)
deriving Repr, DecidableEq

/-- One entry produced by the directory walk. -/
structure FsEntry where
  path : String
  isDir : Bool
  hasGitDir : Bool
  config : ConfigFile
deriving Repr, DecidableEq

/-- ASCII whitespace (the characters Rust's `str::trim` strips in the
configuration and subprocess texts modeled here). -/
def isWs (c : Char) : Bool :=
  c == ' ' || c == '\t' || c == '\n' || c == '\r'

/-- `str::trim` on character lists: strip leading and trailing whitespace. -/
def trimChars (l : List Char) : List Char :=
  ((l.dropWhile isWs).reverse.dropWhile isWs).reverse

/-- `str::trim` on strings. -/
def trimStr (s : String) : String :=
  String.mk (trimChars s.data)

/-- `str::starts_with` on strings. -/
def strStartsWith (s pre : String) : Bool :=
  List.isPrefixOf pre.data s.data

/-- `str::ends_with` on strings. -/
def strEndsWith (s suf : String) : Bool :=
  List.isSuffixOf suf.data s.data

/-- Drop the first `n` characters of a string. -/
def strDrop (s : String) (n : Nat) : String :=
  String.mk (s.data.drop n)

/-- Drop the last `n` characters of a string. -/
def strDropRight (s : String) (n : Nat) : String :=
  String.mk (s.data.take (s.data.length - n))

/-- The line loop of `parse_git_config`: a `[remote "<name>"]` header opens a
remote context, any other `[` header closes it, and a `url = <value>` line
inside a context appends a `(name, trimmed value)` pair in file order. -/
def parse_git_config (lines : List String) : List ScannedRemote :=
  (lines.foldl (fun st line =>
    let trimmed := trimStr line
    if strStartsWith trimmed "[remote \"" && strEndsWith trimmed "\"]" then
      (some (strDropRight (strDrop trimmed 9) 2), st.2)
    else if strStartsWith trimmed "[" then
      (none, st.2)
    else
      match st.1 with
      | some remoteName =>
        if strStartsWith trimmed "url = " then
          (st.1, st.2 ++ [ScannedRemote.mk remoteName (trimStr (strDrop trimmed 6))])
        else st
      | none => st)
    ((none : Option String), ([] : List ScannedRemote))).2

/-- `parse_git_config` at the file level: an unreadable file yields the empty
remote list (the `Err(_) => return Vec::new()` arm). -/
def parse_git_config_file : ConfigFile → List ScannedRemote
  | ConfigFile.missing => []
  | ConfigFile.unreadable => []
  | ConfigFile.readable lines => parse_git_config lines

/-- `config_path.exists()`. -/
def configExists : ConfigFile → Bool
  | ConfigFile.missing => false
  | ConfigFile.unreadable => true
  | ConfigFile.readable _ => true

/-- The body of the walk loop in `scan_directory`: non-directories are
skipped, a directory is recorded iff it has a `.git` subdirectory whose
config file exists, and its remotes are whatever `parse_git_config`
returns. -/
def scanOne (e : FsEntry) : Option ScannedRepo :=
  if e.isDir && e.hasGitDir then
    if configExists e.config then
      some (ScannedRepo.mk e.path (parse_git_config_file e.config))
    else none
  else none

/-- `scan_directory` over the walked entries. -/
def scan_directory (entries : List FsEntry) : List ScannedRepo :=
  entries.filterMap scanOne

/-! ## Data model for synchronization (gitr-core models) -/

/-- `MergeStrategy` from sync_link.rs. -/
inductive MergeStrategy where
  | FastForward
  | Merge
  | Rebase
  | ForcePush
deriving Repr, DecidableEq

/-- `SyncStatus` from sync_state.rs. -/
inductive SyncStatus where
  | Success
  | PartialSuccess
  | Failed
  | Skipped
deriving Repr, DecidableEq

/-- `SyncRecord` from sync_state.rs, restricted to the fields the sync state
machine computes (the UUID and wall-clock timestamps are environment noise
and are omitted). -/
structure SyncRecord where
  repo_id : String
  sync_link_id : Option String
  branches_synced : Nat
  branches_failed : Nat
  commits_transferred : Nat
  status : SyncStatus
  errors : List String
deriving Repr, DecidableEq

/-- `SyncRecord::new`: zero counters, `Success` placeholder status, no
errors. -/
def SyncRecord.new (repo_id : String) : SyncRecord :=
  { repo_id := repo_id
    sync_link_id := none
    branches_synced := 0
    branches_failed := 0
    commits_transferred := 0
    status := SyncStatus.Success
    errors := [] }

/-- `Repo` from repo.rs, restricted to the fields read by the sync core
(identifiers modeled as strings, paths as strings). -/
structure Repo where
  id : String
  full_name : String
  owner : String
  name : String
  clone_url : String
  local_path : Option String
  is_fork : Bool
  upstream_full_name : Option String
  default_branch : String
deriving Repr, DecidableEq

/-- `ForkSyncResult` from fork_sync.rs. -/
structure ForkSyncResult where
  repo_full_name : String
  record : SyncRecord
  dry_run : Bool
deriving Repr, DecidableEq

/-- The `GitrError` variants produced by the sync core (error.rs). -/
inductive GitrError where
  | GitError (message : String)
  | MergeConflict (branch : String) (message : String)
  | FastForwardFailed (branch : String) (message : String)
deriving Repr, DecidableEq

/-- The `Display` rendering of a `GitrError` (thiserror `#[error(...)]`
attributes), used when a failure message is pushed onto `record.errors`. -/
def GitrError.toMessage : GitrError → String
  | GitrError.GitError m => "git error: " ++ m
  | GitrError.MergeConflict b m => "merge conflict on branch " ++ b ++ ": " ++ m
  | GitrError.FastForwardFailed b m => "fast-forward failed on branch " ++ b ++ ": " ++ m

/-! ## Git operation wrappers (git_ops.rs)

Each external `git` subprocess is modeled by its raw outcome as supplied by
an environment record `GitEnv`: `Except.error e` is the OS failing to run
git at all (the `Command::output()` `Err` arm), and `Except.ok out` is a
completed process with its captured stdout, stderr and success flag. -/

/-- `GitOutput` from git_ops.rs. -/
structure GitOutput where
  stdout : String
  stderr : String
  success : Bool
deriving Repr, DecidableEq

instance {ε α : Type} [DecidableEq ε] [DecidableEq α] : DecidableEq (Except ε α) :=
  fun a b =>
    match a, b with
    | Except.error e₁, Except.error e₂ => decidable_of_iff (e₁ = e₂) (by simp)
    | Except.error _, Except.ok _ => isFalse (fun hc => Except.noConfusion hc)
    | Except.ok _, Except.error _ => isFalse (fun hc => Except.noConfusion hc)
    | Except.ok a₁, Except.ok a₂ => decidable_of_iff (a₁ = a₂) (by simp)

/-- The outcome of every external call one `sync_fork` run can make, plus
whether `<local_path>/.git` exists.  Each field is consulted only if the
state machine actually performs the corresponding call. -/
structure GitEnv where
  gitDirExists : Bool
  cloneOut : Except String GitOutput
  remoteOut : Except String GitOutput
  remoteAddOut : Except String GitOutput
  fetchOut : Except String GitOutput
  revListOut : Except String GitOutput
  checkoutOut : Except String GitOutput
  mergeFfOut : Except String GitOutput
  mergeOut : Except String GitOutput
  rebaseOut : Except String GitOutput
  resetOut : Except String GitOutput
  pushOut : Except String GitOutput
deriving Repr, DecidableEq

/-- `git_ok`: turn a raw subprocess outcome into stdout, or a `GitError` when
the process could not be run or exited non-zero. -/
def gitOk (raw : Except String GitOutput) (cmdDesc : String) : Except GitrError String :=
  match raw with
  | Except.error e =>
    Except.error (GitrError.GitError ("failed to run git " ++ cmdDesc ++ ": " ++ e))
  | Except.ok out =>
    if out.success then Except.ok out.stdout
    else Except.error (GitrError.GitError ("git " ++ cmdDesc ++ " failed: " ++ trimStr out.stderr))

/-- `clone` from git_ops.rs. -/
def cloneOp (env : GitEnv) (url : String) : Except GitrError Unit :=
  match env.cloneOut with
  | Except.error e => Except.error (GitrError.GitError ("failed to clone " ++ url ++ ": " ++ e))
  | Except.ok out =>
    if out.success then Except.ok ()
    else Except.error (GitrError.GitError ("git clone failed: " ++ trimStr out.stderr))

/-- `fetch` from git_ops.rs (`git fetch upstream --prune`). -/
def fetchOp (env : GitEnv) : Except GitrError Unit :=
  (gitOk env.fetchOut "fetch upstream --prune").map (fun _ => ())

/-- `checkout` from git_ops.rs. -/
def checkoutOp (env : GitEnv) (branch : String) : Except GitrError Unit :=
  (gitOk env.checkoutOut ("checkout " ++ branch)).map (fun _ => ())

/-- `push` from git_ops.rs. -/
def pushOp (env : GitEnv) (branch : String) : Except GitrError Unit :=
  (gitOk env.pushOut ("push origin " ++ branch)).map (fun _ => ())

/-- `merge_ff`: a non-zero exit becomes `FastForwardFailed`. -/
def mergeFfOp (env : GitEnv) (remote_branch : String) : Except GitrError Unit :=
  match env.mergeFfOut with
  | Except.error e =>
    Except.error (GitrError.GitError
      ("failed to run git merge --ff-only " ++ remote_branch ++ ": " ++ e))
  | Except.ok out =>
    if out.success then Except.ok ()
    else Except.error (GitrError.FastForwardFailed remote_branch (trimStr out.stderr))

/-- `merge`: a non-zero exit becomes `MergeConflict`. -/
def mergeOp (env : GitEnv) (remote_branch : String) : Except GitrError Unit :=
  match env.mergeOut with
  | Except.error e =>
    Except.error (GitrError.GitError
      ("failed to run git merge " ++ remote_branch ++ " --no-edit: " ++ e))
  | Except.ok out =>
    if out.success then Except.ok ()
    else Except.error (GitrError.MergeConflict remote_branch (trimStr out.stderr))

/-- `rebase`: a non-zero exit becomes `MergeConflict` (the `rebase --abort`
side effect is recorded in the operation trace at the call site). -/
def rebaseOp (env : GitEnv) (remote_branch : String) : Except GitrError Unit :=
  match env.rebaseOut with
  | Except.error e =>
    Except.error (GitrError.GitError ("failed to run git rebase " ++ remote_branch ++ ": " ++ e))
  | Except.ok out =>
    if out.success then Except.ok ()
    else Except.error (GitrError.MergeConflict remote_branch (trimStr out.stderr))

/-- Substring test on character lists (Rust `str::contains`). -/
def listContainsSub (pat : List Char) : List Char → Bool
  | [] => pat.isEmpty
  | c :: t => List.isPrefixOf pat (c :: t) || listContainsSub pat t

/-- Substring test on strings. -/
def containsSubstr (hay pat : String) : Bool :=
  listContainsSub pat.data hay.data

/-- `remote_add`: an "already exists" failure is treated as success. -/
def remoteAddOp (env : GitEnv) (remoteName _url : String) : Except GitrError Unit :=
  match env.remoteAddOut with
  | Except.error e =>
    Except.error (GitrError.GitError ("failed to run git remote add: " ++ e))
  | Except.ok out =>
    if out.success then Except.ok ()
    else if containsSubstr out.stderr "already exists" then Except.ok ()
    else Except.error (GitrError.GitError
      ("failed to add remote " ++ remoteName ++ ": " ++ trimStr out.stderr))

/-- `str::lines`-style splitting at newline characters. -/
def splitOnNl : List Char → List (List Char)
  | [] => [[]]
  | c :: t =>
    if c == '\n' then [] :: splitOnNl t
    else
      match splitOnNl t with
      | [] => [[c]]
      | h :: r => (c :: h) :: r

/-- `remote_list`: split stdout into lines, trim each, keep the non-empty
ones. -/
def remoteListOp (env : GitEnv) : Except GitrError (List String) :=
  (gitOk env.remoteOut "remote").map (fun stdout =>
    (((splitOnNl stdout.data).map (fun lc => String.mk (trimChars lc))).filter
      (fun l => !l.isEmpty)))

/-- The value of a decimal digit string. -/
def digitsToNat (l : List Char) : Nat :=
  l.foldl (fun n c => n * 10 + (c.toNat - 48)) 0

/-- Rust `str::parse::<u32>`: an optional leading `+`, then at least one
decimal digit, value below `2^32`; anything else fails. -/
def parseU32 (s : String) : Option Nat :=
  let core := match s.data with
    | '+' :: t => t
    | l => l
  if core.isEmpty then none
  else if core.all Char.isDigit then
    if digitsToNat core < 4294967296 then some (digitsToNat core) else none
  else none

/-- `rev_list_count`: `git rev-list --count a..b`; a failed subprocess is an
error, while unparsable stdout of a successful subprocess is `0`
(`parse().unwrap_or(0)`). -/
def rev_list_count (env : GitEnv) (a b : String) : Except GitrError Nat :=
  (gitOk env.revListOut ("rev-list --count " ++ a ++ ".." ++ b)).map
    (fun stdout => (parseU32 (trimStr stdout)).getD 0)

/-! ## The fork synchronization state machine (fork_sync.rs)

`sync_fork_inner` is embedded as a function from the environment to its
`Result<u32, GitrError>` together with the trace of git operations invoked,
in source order.  The trace is what makes "operation X is never invoked"
provable. -/

/-- The git subprocess kinds a `sync_fork` run can invoke. -/
inductive GitOp where
  | clone
  | remoteList
  | remoteAdd
  | fetch
  | revList
  | checkout
  | mergeFf
  | merge
  | rebase
  | rebaseAbort
  | resetHard
  | push
deriving Repr, DecidableEq

/-- Step 1 of `sync_fork_inner`: the repo's known local path if set, else
`clone_base_dir/<repo_name>`.  (The environment record already describes the
resolved location, so this value is not consumed further by the model.) -/
def resolve_local_path (repo : Repo) (clone_base_dir : String) : String :=
  match repo.local_path with
  | some p => p
  | none => clone_base_dir ++ "/" ++ repo.name

/-- Steps 5–7 of `sync_fork_inner` for a live run that is behind: apply the
merge strategy (the `match strategy` block, including the extra `checkout`
and the inline `git reset --hard` of the `ForcePush` arm, and the
`rebase --abort` performed when a rebase fails). -/
def applyStrategy (env : GitEnv) (strategy : MergeStrategy) (branch upstream_ref : String)
    (ops : List GitOp) : Except GitrError Unit × List GitOp :=
  match strategy with
  | MergeStrategy.FastForward => (mergeFfOp env upstream_ref, ops ++ [GitOp.mergeFf])
  | MergeStrategy.Merge => (mergeOp env upstream_ref, ops ++ [GitOp.merge])
  | MergeStrategy.Rebase =>
    match rebaseOp env upstream_ref with
    | Except.ok _ => (Except.ok (), ops ++ [GitOp.rebase])
    | Except.error e => (Except.error e, ops ++ [GitOp.rebase, GitOp.rebaseAbort])
  | MergeStrategy.ForcePush =>
    match checkoutOp env branch with
    | Except.error e => (Except.error e, ops ++ [GitOp.checkout])
    | Except.ok _ =>
      match env.resetOut with
      | Except.error e =>
        (Except.error (GitrError.GitError ("git reset failed: " ++ e)),
          ops ++ [GitOp.checkout, GitOp.resetHard])
      | Except.ok out =>
        if out.success then (Except.ok (), ops ++ [GitOp.checkout, GitOp.resetHard])
        else
          (Except.error (GitrError.GitError ("git reset --hard failed: " ++ trimStr out.stderr)),
            ops ++ [GitOp.checkout, GitOp.resetHard])

/-- Steps 5–7 of `sync_fork_inner` once the behind count is known positive:
checkout the default branch, apply the strategy, push to origin, and return
the behind count. -/
def syncFromCheckout (env : GitEnv) (strategy : MergeStrategy) (branch upstream_ref : String)
    (behind : Nat) (ops : List GitOp) : Except GitrError Nat × List GitOp :=
  match checkoutOp env branch with
  | Except.error e => (Except.error e, ops ++ [GitOp.checkout])
  | Except.ok _ =>
    match applyStrategy env strategy branch upstream_ref (ops ++ [GitOp.checkout]) with
    | (Except.error e, ops2) => (Except.error e, ops2)
    | (Except.ok _, ops2) =>
      match pushOp env branch with
      | Except.error e => (Except.error e, ops2 ++ [GitOp.push])
      | Except.ok _ => (Except.ok behind, ops2 ++ [GitOp.push])

/-- Steps 3–8 of `sync_fork_inner`, after the upstream remote is ensured:
fetch (live only), compute the behind count (best-effort in dry-run, which
then stops with that count), stop at 0, otherwise checkout / strategy /
push. -/
def syncAfterRemote (repo : Repo) (env : GitEnv) (strategy : MergeStrategy) (dry_run : Bool)
    (ops : List GitOp) : Except GitrError Nat × List GitOp :=
  let branch := repo.default_branch
  let upstream_ref := "upstream/" ++ branch
  if dry_run then
    let behind :=
      match rev_list_count env branch upstream_ref with
      | Except.ok n => n
      | Except.error _ => 0
    (Except.ok behind, ops ++ [GitOp.revList])
  else
    match fetchOp env with
    | Except.error e => (Except.error e, ops ++ [GitOp.fetch])
    | Except.ok _ =>
      match rev_list_count env branch upstream_ref with
      | Except.error e => (Except.error e, ops ++ [GitOp.fetch, GitOp.revList])
      | Except.ok behind =>
        if behind == 0 then (Except.ok 0, ops ++ [GitOp.fetch, GitOp.revList])
        else syncFromCheckout env strategy branch upstream_ref behind
          (ops ++ [GitOp.fetch, GitOp.revList])

/-- Step 2 of `sync_fork_inner`: list remotes, and add the `upstream` remote
when missing (skipped in dry-run). -/
def syncAfterClone (repo : Repo) (upstream_clone_url : String) (env : GitEnv)
    (strategy : MergeStrategy) (dry_run : Bool) (ops : List GitOp) :
    Except GitrError Nat × List GitOp :=
  match remoteListOp env with
  | Except.error e => (Except.error e, ops ++ [GitOp.remoteList])
  | Except.ok remotes =>
    if remotes.contains "upstream" then
      syncAfterRemote repo env strategy dry_run (ops ++ [GitOp.remoteList])
    else if dry_run then
      syncAfterRemote repo env strategy dry_run (ops ++ [GitOp.remoteList])
    else
      match remoteAddOp env "upstream" upstream_clone_url with
      | Except.error e => (Except.error e, ops ++ [GitOp.remoteList, GitOp.remoteAdd])
      | Except.ok _ =>
        syncAfterRemote repo env strategy dry_run (ops ++ [GitOp.remoteList, GitOp.remoteAdd])

/-- `sync_fork_inner` from fork_sync.rs. -/
def sync_fork_inner (repo : Repo) (upstream_clone_url : String) (clone_base_dir : String)
    (strategy : MergeStrategy) (dry_run : Bool) (env : GitEnv) :
    Except GitrError Nat × List GitOp :=
  let _local_path := resolve_local_path repo clone_base_dir
  if !env.gitDirExists then
    if dry_run then (Except.ok 0, [])
    else
      match cloneOp env repo.clone_url with
      | Except.error e => (Except.error e, [GitOp.clone])
      | Except.ok _ => syncAfterClone repo upstream_clone_url env strategy dry_run [GitOp.clone]
  else
    syncAfterClone repo upstream_clone_url env strategy dry_run []

/-- `sync_fork` from fork_sync.rs: run the inner state machine and fold its
outcome into a `SyncRecord` (an `Ok` is `Skipped` in dry-run and `Success`
live; an `Err` is `Failed` with the rendered message appended). -/
def sync_fork (repo : Repo) (upstream_clone_url : String) (clone_base_dir : String)
    (strategy : MergeStrategy) (dry_run : Bool) (env : GitEnv) :
    ForkSyncResult × List GitOp :=
  let r := sync_fork_inner repo upstream_clone_url clone_base_dir strategy dry_run env
  let record0 := SyncRecord.new repo.id
  let record :=
    match r.1 with
    | Except.ok commits =>
      { record0 with
          branches_synced := 1
          commits_transferred := commits
          status := if dry_run then SyncStatus.Skipped else SyncStatus.Success }
    | Except.error e =>
      { record0 with
          branches_failed := 1
          status := SyncStatus.Failed
          errors := record0.errors ++ [e.toMessage] }
  ({ repo_full_name := repo.full_name, record := record, dry_run := dry_run }, r.2)

/-! ## The sync engine (engine.rs)

`sync_all_forks` spawns one blocking task per input pair, in input order, and
then awaits the join handles in that same order, pushing each `Ok` result.
In the model a task is the pure `sync_fork` computation under a per-pair
environment, so it always completes without panicking and every join yields
`Ok`; completion order of the underlying workers is irrelevant to the
returned list, which is ordered by the handle list. -/

/-- The `for handle in handles { if let Ok(result) = handle.await { push } }`
loop body: keep the payload of an `Ok` join, drop a join error. -/
def collectJoin {β : Type} (acc : List β) (h : Except Unit β) : List β :=
  match h with
  | Except.ok result => acc ++ [result]
  | Except.error _ => acc

def sync_all_forks (concurrency : Nat) (repos : List (Repo × String))
    (clone_base_dir : String) (strategy : MergeStrategy) (dry_run : Bool)
    (envOf : Repo × String → GitEnv) : List ForkSyncResult :=
  let _ := concurrency
  let handles : List (Except Unit ForkSyncResult) :=
    repos.map (fun pr =>
      Except.ok (sync_fork pr.1 pr.2 clone_base_dir strategy dry_run (envOf pr)).1)
  handles.foldl collectJoin []

/-! ## The engine's concurrency limiting (engine.rs, lines 30 and 49–51)

The engine builds `Semaphore::new(self.concurrency)` and each spawned
closure begins with

  `let _permit = sem.acquire_owned();`

`acquire_owned` is an `async fn`: the expression only constructs a future.
Inside the synchronous `spawn_blocking` closure it is never `.await`ed (nor
polled in any other way), and a tokio semaphore-acquire future that is never
polled never takes a permit; the unpolled future bound to `_permit` is
dropped at the end of the closure.  A running unit therefore holds 0 permits,
and scheduling is constrained only by well-formedness, not by the semaphore.

The schedule model: an interleaving is a list of start/finish events over the
`n` spawned units; well-formedness says each unit starts exactly once,
finishes exactly once, and never finishes before starting.  The semaphore
admits a prefix when the permits held by active units stay within the limit,
with each unit holding `enginePermitsPerUnit` permits while active. -/

/-- Permits actually held by one running unit of `sync_all_forks`: the
acquire future is created but never awaited, so no permit is taken. -/
def enginePermitsPerUnit : Nat := 0

/-- A scheduling event over `n` spawned units. -/
inductive SchedEvent (n : Nat) where
  | start (i : Fin n)
  | finish (i : Fin n)
deriving Repr, DecidableEq

def isStart {n : Nat} : SchedEvent n → Bool
  | SchedEvent.start _ => true
  | SchedEvent.finish _ => false

def countStart {n : Nat} (evs : List (SchedEvent n)) (i : Fin n) : Nat :=
  evs.countP (fun e => decide (e = SchedEvent.start i))

def countFinish {n : Nat} (evs : List (SchedEvent n)) (i : Fin n) : Nat :=
  evs.countP (fun e => decide (e = SchedEvent.finish i))

/-- Number of units started but not yet finished after a list of events. -/
def activeUnits {n : Nat} (evs : List (SchedEvent n)) : Nat :=
  evs.countP isStart - evs.countP (fun e => !isStart e)

/-- Each unit starts exactly once, finishes exactly once, and never finishes
before starting (checked over every prefix). -/
def wellFormedSched {n : Nat} (evs : List (SchedEvent n)) : Prop :=
  (∀ i : Fin n, countStart evs i = 1 ∧ countFinish evs i = 1) ∧
  (∀ k ∈ List.range (evs.length + 1), ∀ i : Fin n,
    countFinish (evs.take k) i ≤ countStart (evs.take k) i)

/-- A schedule the engine's semaphore admits: for each prefix, the permits
held by the active units fit under the limit, with `permitsPerUnit` permits
held per active unit. -/
def legalSchedule {n : Nat} (permitsPerUnit limit : Nat) (evs : List (SchedEvent n)) : Prop :=
  wellFormedSched evs ∧
  ∀ k ∈ List.range (evs.length + 1), activeUnits (evs.take k) * permitsPerUnit ≤ limit

/-- Largest number of simultaneously active units over a schedule. -/
def maxActive {n : Nat} (evs : List (SchedEvent n)) : Nat :=
  (List.range (evs.length + 1)).foldl (fun m k => max m (activeUnits (evs.take k))) 0

instance {n : Nat} (evs : List (SchedEvent n)) : Decidable (wellFormedSched evs) := by
  unfold wellFormedSched
  infer_instance

instance {n : Nat} (permitsPerUnit limit : Nat) (evs : List (SchedEvent n)) :
    Decidable (legalSchedule permitsPerUnit limit evs) := by
  unfold legalSchedule
  infer_instance

/-- A schedule of 5 units, concurrency limit 2: all five start before any
finishes. -/
def evsAllAtOnce : List (SchedEvent 5) :=
  [SchedEvent.start 0, SchedEvent.start 1, SchedEvent.start 2, SchedEvent.start 3,
    SchedEvent.start 4, SchedEvent.finish 0, SchedEvent.finish 1, SchedEvent.finish 2,
    SchedEvent.finish 3, SchedEvent.finish 4]

/-! ## Concrete demonstration values -/

/-- A successful subprocess with the given stdout. -/
def okOut (stdout : String) : GitOutput :=
  { stdout := stdout, stderr := "", success := true }

/-- A failed subprocess (non-zero exit) with the given stderr. -/
def errOut (stderr : String) : GitOutput :=
  { stdout := "", stderr := stderr, success := false }

/-- An environment where the clone already exists, `upstream` is configured,
every subprocess succeeds, and the behind count evaluates to 0. -/
def envBase : GitEnv :=
  { gitDirExists := true
    cloneOut := Except.ok (okOut "")
    remoteOut := Except.ok (okOut "origin\nupstream\n")
    remoteAddOut := Except.ok (okOut "")
    fetchOut := Except.ok (okOut "")
    revListOut := Except.ok (okOut "0\n")
    checkoutOut := Except.ok (okOut "")
    mergeFfOut := Except.ok (okOut "")
    mergeOut := Except.ok (okOut "")
    rebaseOut := Except.ok (okOut "")
    resetOut := Except.ok (okOut "")
    pushOut := Except.ok (okOut "") }

/-- As `envBase` but `git remote` cannot be run at all. -/
def envRemoteListFails : GitEnv :=
  { envBase with remoteOut := Except.error "permission denied" }

/-- As `envBase` but `git rev-list --count` exits non-zero. -/
def envRevListFails : GitEnv :=
  { envBase with revListOut := Except.ok (errOut "bad revision") }

/-- As `envBase` but `git rev-list --count` succeeds with non-numeric
stdout. -/
def envRevListGarbage : GitEnv :=
  { envBase with revListOut := Except.ok (okOut "not-a-number") }

/-- A representative fork. -/
def demoRepo : Repo :=
  { id := "repo-1"
    full_name := "user/repo"
    owner := "user"
    name := "repo"
    clone_url := "https://github.com/user/repo.git"
    local_path := none
    is_fork := true
    upstream_full_name := some "up/repo"
    default_branch := "main" }

/-- The best-effort behind count used by a dry run: the rev-list result, or 0
when it cannot be computed (`unwrap_or(0)`). -/
def dryRunBehind (env : GitEnv) (repo : Repo) : Nat :=
  match rev_list_count env repo.default_branch ("upstream/" ++ repo.default_branch) with
  | Except.ok n => n
  | Except.error _ => 0

/-- A remote descriptor two different local clones point at. -/
def remoteAlpha : RemoteRepo :=
  { full_name := "user/alpha"
    owner := "user"
    name := "alpha"
    clone_url := "https://github.com/user/alpha.git"
    ssh_url := "git@github.com:user/alpha.git"
    default_branch := "main"
    is_fork := false
    upstream_full_name := none
    upstream_clone_url := none
    description := none
    is_private := false
    is_archived := false
    updated_at := none }

/-- First local clone of `remoteAlpha` (HTTPS remote URL). -/
def localOne : ScannedRepo :=
  { path := "/home/u/alpha"
    remotes := [{ name := "origin", url := "https://github.com/user/alpha.git" }] }

/-- Second local clone of `remoteAlpha` (SSH-scheme remote URL). -/
def localTwo : ScannedRepo :=
  { path := "/home/u/alpha-copy"
    remotes := [{ name := "origin", url := "ssh://git@github.com/user/alpha" }] }

/-- A directory whose `.git/config` exists but cannot be read. -/
def entryUnreadable : FsEntry :=
  { path := "/repos/broken", isDir := true, hasGitDir := true, config := ConfigFile.unreadable }

/-! # Theorems -/

/-! ## URL normalization (claim C4) -/

/-- `Char.ofNat` of a value below the surrogate range round-trips. -/
theorem toNat_ofNat_valid (n : Nat) (h : n < 55296) : (Char.ofNat n).toNat = n := by
  have hval : n.isValidChar := Or.inl h
  simp [Char.ofNat, hval, Char.ofNatAux, Char.toNat, UInt32.toNat, UInt32.ofNat']

/-- ASCII lowercasing is idempotent per character. -/
theorem lowerChar_idem (c : Char) : lowerChar (lowerChar c) = lowerChar c := by
  unfold lowerChar
  by_cases h : 65 ≤ c.toNat ∧ c.toNat ≤ 90
  · rw [if_pos h]
    have h2 : (Char.ofNat (c.toNat + 32)).toNat = c.toNat + 32 :=
      toNat_ofNat_valid (c.toNat + 32) (by omega)
    rw [if_neg]
    intro hcon
    rw [h2] at hcon
    omega
  · rw [if_neg h, if_neg h]

/-- Characters of `stripScheme l` come from `l`. -/
theorem mem_stripScheme (l : List Char) (c : Char) (hc : c ∈ stripScheme l) : c ∈ l := by
  unfold stripScheme at hc
  split_ifs at hc <;> first | exact List.drop_subset _ _ hc | exact hc

/-- Characters of `stripUserAt l` come from `l`. -/
theorem mem_stripUserAt (l : List Char) (c : Char) (hc : c ∈ stripUserAt l) : c ∈ l := by
  unfold stripUserAt at hc
  rcases hf : l.findIdx? (fun c => c == '@') with _ | atPos <;> rw [hf] at hc
  · exact hc
  · dsimp at hc
    split_ifs at hc
    · exact List.drop_subset _ _ hc
    · exact hc

/-- Characters of `scpRewrite l` come from `l`, or are the inserted `/`. -/
theorem mem_scpRewrite (l : List Char) (c : Char) (hc : c ∈ scpRewrite l) :
    c ∈ l ∨ c = '/' := by
  unfold scpRewrite at hc
  rcases hf : l.findIdx? (fun c => c == ':') with _ | colonPos <;> rw [hf] at hc
  · exact Or.inl hc
  · dsimp at hc
    split_ifs at hc
    · exact Or.inl hc
    · rcases List.mem_append.mp hc with h1 | h1
      · exact Or.inl (List.take_subset _ _ h1)
      · rcases List.mem_cons.mp h1 with h2 | h2
        · exact Or.inr h2
        · exact Or.inl (List.drop_subset _ _ h2)

/-- Characters of `stripDotGit l` come from `l`. -/
theorem mem_stripDotGit (l : List Char) (c : Char) (hc : c ∈ stripDotGit l) : c ∈ l := by
  unfold stripDotGit at hc
  split_ifs at hc
  · exact List.take_subset _ _ hc
  · exact hc

/-- Characters of `trimSlashes l` come from `l`. -/
theorem mem_trimSlashes (l : List Char) (c : Char) (hc : c ∈ trimSlashes l) : c ∈ l := by
  unfold trimSlashes at hc
  rw [List.mem_reverse] at hc
  have := (List.dropWhile_sublist (l := l.reverse) (fun c => c == '/')).subset hc
  exact List.mem_reverse.mp this

/-- Every character of a normalized URL is fixed by lowercasing. -/
theorem lowered_normalize (l : List Char) :
    ∀ c ∈ normalizeUrlChars l, lowerChar c = c := by
  intro c hc
  unfold normalizeUrlChars at hc
  have hc1 := mem_trimSlashes _ _ hc
  have hc2 := mem_stripDotGit _ _ hc1
  rcases mem_scpRewrite _ _ hc2 with hc3 | rfl
  · have hc4 := mem_stripUserAt _ _ hc3
    have hc5 := mem_stripScheme _ _ hc4
    rcases List.mem_map.mp hc5 with ⟨d, _, rfl⟩
    exact lowerChar_idem d
  · decide

/-- A list all of whose characters are lowercase-fixed is fixed by the
lowercasing pass. -/
theorem map_lower_eq_self (y : List Char) (h : ∀ c ∈ y, lowerChar c = c) :
    y.map lowerChar = y := by
  conv_rhs => rw [← List.map_id y]
  exact List.map_congr_left h

/-- `ColonOk` restricts to prefixes. -/
theorem colonOk_of_isPrefix (t l : List Char) (hp : t <+: l) (h : ColonOk l) : ColonOk t := by
  rcases hp with ⟨s, rfl⟩
  intro a b hsplit hna
  exact h a (b ++ s) (by rw [hsplit, List.append_assoc, List.cons_append]) hna

/-- A colon-free prefix of a first-colon decomposition extends any shorter
colon-free chunk: if `x ++ y = a ++ ':' :: b` with `':' ∉ a` and `':' ∉ x`,
then `a` extends `x`. -/
theorem no_colon_chunk_extend (x : List Char) :
    ∀ (y a b : List Char), x ++ y = a ++ ':' :: b → ':' ∉ a → ':' ∉ x →
      ∃ a2, a = x ++ a2 := by
  induction x with
  | nil => intro y a b _ _ _; exact ⟨a, rfl⟩
  | cons c x' ih =>
    intro y a b heq hna hnx
    cases a with
    | nil =>
      simp only [List.nil_append, List.cons_append] at heq
      have : c = ':' := (List.cons.injEq _ _ _ _).mp heq |>.1
      exact absurd (this ▸ List.mem_cons_self c x') hnx
    | cons d a' =>
      simp only [List.cons_append, List.cons.injEq] at heq
      rcases heq with ⟨hcd, htail⟩
      have hna' : ':' ∉ a' := fun hm => hna (List.mem_cons_of_mem _ hm)
      have hnx' : ':' ∉ x' := fun hm => hnx (List.mem_cons_of_mem _ hm)
      rcases ih y a' b htail hna' hnx' with ⟨a2, ha2⟩
      exact ⟨a2, by rw [ha2, hcd, List.cons_append]⟩

/-- The first-colon index found by `findIdx?` decomposes the list into a
colon-free prefix, the colon, and the rest. -/
theorem findIdx?_colon_decomp (l : List Char) (p : Nat)
    (h : l.findIdx? (fun c => c == ':') = some p) :
    l = l.take p ++ ':' :: l.drop (p + 1) ∧ ':' ∉ l.take p := by
  rcases List.findIdx?_eq_some_iff_getElem.mp h with ⟨hlt, hp, hbefore⟩
  have hcolon : l[p] = ':' := by simpa using hp
  constructor
  · conv_lhs => rw [← List.take_append_drop p l]
    rw [List.drop_eq_getElem_cons hlt, hcolon]
  · intro hm
    rcases List.mem_iff_getElem.mp hm with ⟨j, hj, hjv⟩
    have hjp : j < p := by
      have := hj
      simp only [List.length_take] at this
      omega
    have := hbefore j hjp
    rw [List.getElem_take] at hjv
    simp [hjv] at this

/-- First-colon decompositions are unique: two colon-free prefixes of the
same list followed by a colon coincide. -/
theorem first_colon_unique (l a b a' b' : List Char)
    (h1 : l = a ++ ':' :: b) (h2 : l = a' ++ ':' :: b')
    (hna : ':' ∉ a) (hna' : ':' ∉ a') : a = a' := by
  rcases no_colon_chunk_extend a (':' :: b) a' b' (by rw [← h1, h2]) hna' hna with ⟨c1, hc1⟩
  rcases no_colon_chunk_extend a' (':' :: b') a b (by rw [← h2, h1]) hna hna' with ⟨c2, hc2⟩
  have hlen : a.length = a'.length := by
    have l1 : a'.length = a.length + c1.length := by rw [hc1, List.length_append]
    have l2 : a.length = a'.length + c2.length := by rw [hc2, List.length_append]
    omega
  have : c2 = [] := by
    have := congrArg List.length hc2
    rw [List.length_append] at this
    have : c2.length = 0 := by omega
    exact List.length_eq_zero.mp this
  rw [hc2, this, List.append_nil]

/-- The scp rewrite establishes the first-colon invariant. -/
theorem colonOk_scpRewrite (l : List Char) : ColonOk (scpRewrite l) := by
  rcases hf : l.findIdx? (fun c => c == ':') with _ | colonPos
  · have hl : scpRewrite l = l := by simp [scpRewrite, hf]
    rw [hl]
    intro a b heq hna
    have hmem : ':' ∈ l := by rw [heq]; simp
    have := List.findIdx?_eq_none_iff.mp hf ':' hmem
    simp at this
  · rcases findIdx?_colon_decomp l colonPos hf with ⟨hdec, hnc⟩
    by_cases hsl : '/' ∈ l.take colonPos
    · have hl : scpRewrite l = l := by simp [scpRewrite, hf, hsl]
      rw [hl]
      intro a b heq hna
      have ha : a = l.take colonPos :=
        first_colon_unique l a b (l.take colonPos) (l.drop (colonPos + 1)) heq hdec hna hnc
      rw [ha]
      exact hsl
    · have hl : scpRewrite l = l.take colonPos ++ '/' :: l.drop (colonPos + 1) := by
        simp [scpRewrite, hf, hsl]
      rw [hl]
      intro a b heq hna
      have hx : ':' ∉ l.take colonPos ++ ['/'] := by
        intro hm
        rcases List.mem_append.mp hm with hm | hm
        · exact hnc hm
        · simp at hm
      have heq' : (l.take colonPos ++ ['/']) ++ l.drop (colonPos + 1) = a ++ ':' :: b := by
        rw [List.append_assoc]
        simpa using heq
      rcases no_colon_chunk_extend (l.take colonPos ++ ['/'])
        (l.drop (colonPos + 1)) a b heq' hna hx with ⟨a2, ha2⟩
      rw [ha2]
      simp

/-- `stripDotGit` returns a prefix. -/
theorem stripDotGit_isPrefix (l : List Char) : stripDotGit l <+: l := by
  unfold stripDotGit
  split_ifs
  · exact List.take_prefix _ _
  · exact List.prefix_refl l

/-- `trimSlashes` returns a prefix. -/
theorem trimSlashes_isPrefix (l : List Char) : trimSlashes l <+: l := by
  have h : (trimSlashes l).reverse <:+ l.reverse := by
    unfold trimSlashes
    rw [List.reverse_reverse]
    exact List.dropWhile_suffix _
  exact List.reverse_suffix.mp h

/-- The normalized form satisfies the first-colon invariant. -/
theorem colonOk_normalize (l : List Char) : ColonOk (normalizeUrlChars l) := by
  unfold normalizeUrlChars
  have h1 := colonOk_scpRewrite (stripUserAt (stripScheme (l.map lowerChar)))
  have h2 := colonOk_of_isPrefix _ _ (stripDotGit_isPrefix _) h1
  exact colonOk_of_isPrefix _ _ (trimSlashes_isPrefix _) h2

/-- A list with the first-colon invariant has no scheme prefix. -/
theorem not_scheme_start (y w v : List Char) (h : ColonOk y)
    (hw1 : ':' ∉ w) (hw2 : '/' ∉ w) : ¬ ((w ++ ':' :: v) <+: y) := by
  rintro ⟨t, ht⟩
  exact hw2 (h w (v ++ t) (by rw [← ht]; simp) hw1)

/-- The scheme-stripping pass is a no-op on a list with the first-colon
invariant. -/
theorem stripScheme_eq_self_of_colonOk (y : List Char) (h : ColonOk y) :
    stripScheme y = y := by
  have h1 : List.isPrefixOf "https://".data y = false := by
    rw [Bool.eq_false_iff]
    intro hc
    rw [List.isPrefixOf_iff_prefix] at hc
    exact not_scheme_start y "https".data "//".data h (by decide) (by decide)
      ((by decide : "https".data ++ ':' :: "//".data = "https://".data) ▸ hc)
  have h2 : List.isPrefixOf "http://".data y = false := by
    rw [Bool.eq_false_iff]
    intro hc
    rw [List.isPrefixOf_iff_prefix] at hc
    exact not_scheme_start y "http".data "//".data h (by decide) (by decide)
      ((by decide : "http".data ++ ':' :: "//".data = "http://".data) ▸ hc)
  have h3 : List.isPrefixOf "ssh://".data y = false := by
    rw [Bool.eq_false_iff]
    intro hc
    rw [List.isPrefixOf_iff_prefix] at hc
    exact not_scheme_start y "ssh".data "//".data h (by decide) (by decide)
      ((by decide : "ssh".data ++ ':' :: "//".data = "ssh://".data) ▸ hc)
  have h4 : List.isPrefixOf "git://".data y = false := by
    rw [Bool.eq_false_iff]
    intro hc
    rw [List.isPrefixOf_iff_prefix] at hc
    exact not_scheme_start y "git".data "//".data h (by decide) (by decide)
      ((by decide : "git".data ++ ':' :: "//".data = "git://".data) ▸ hc)
  unfold stripScheme
  rw [h1, h2, h3, h4]
  rfl

/-- The scp-colon rewrite is a no-op on a list with the first-colon
invariant. -/
theorem scpRewrite_eq_self_of_colonOk (y : List Char) (h : ColonOk y) :
    scpRewrite y = y := by
  rcases hf : y.findIdx? (fun c => c == ':') with _ | colonPos
  · simp [scpRewrite, hf]
  · rcases findIdx?_colon_decomp y colonPos hf with ⟨hdec, hnc⟩
    have hsl : '/' ∈ y.take colonPos := h _ _ hdec hnc
    simp [scpRewrite, hf, hsl]

/-- `dropWhile` is idempotent. -/
theorem dropWhile_idem {α : Type} (p : α → Bool) (l : List α) :
    List.dropWhile p (List.dropWhile p l) = List.dropWhile p l := by
  induction l with
  | nil => rfl
  | cons c t ih =>
    by_cases h : p c = true
    · simp [List.dropWhile_cons, h, ih]
    · simp [List.dropWhile_cons, h]

/-- Trailing-slash trimming is idempotent. -/
theorem trimSlashes_idem (l : List Char) : trimSlashes (trimSlashes l) = trimSlashes l := by
  unfold trimSlashes
  rw [List.reverse_reverse, dropWhile_idem]

/-- C4 counterexample: `normalize_url` is NOT idempotent — a second pass
strips a second `.git` suffix, and a second pass strips a second `user@`
chunk. -/
theorem normalize_url_not_idempotent :
    normalize_url (normalize_url "a.git.git") ≠ normalize_url "a.git.git" ∧
    normalize_url "a.git.git" = "a.git" ∧
    normalize_url (normalize_url "a.git.git") = "a" ∧
    normalize_url (normalize_url "a@b@c") ≠ normalize_url "a@b@c" := by
  refine ⟨by decide, by decide, by decide, by decide⟩

/-- C4 (amended): `normalize_url` is idempotent on every input whose
normalized form is left unchanged by the `.git`-suffix-stripping pass and by
the `user@`-stripping pass (the two passes a second application can still
fire; lowercasing, scheme stripping, the scp-colon rewrite and slash
trimming are always no-ops on a normalized form). -/
theorem normalize_url_idem_amended (s : String)
    (h1 : stripDotGit (normalizeUrlChars s.data) = normalizeUrlChars s.data)
    (h2 : stripUserAt (normalizeUrlChars s.data) = normalizeUrlChars s.data) :
    normalize_url (normalize_url s) = normalize_url s := by
  show String.mk (normalizeUrlChars (normalizeUrlChars s.data)) = String.mk (normalizeUrlChars s.data)
  have hlow : (normalizeUrlChars s.data).map lowerChar = normalizeUrlChars s.data :=
    map_lower_eq_self _ (lowered_normalize s.data)
  have hco : ColonOk (normalizeUrlChars s.data) := colonOk_normalize s.data
  have htrim : trimSlashes (normalizeUrlChars s.data) = normalizeUrlChars s.data :=
    trimSlashes_idem (stripDotGit (scpRewrite (stripUserAt (stripScheme (s.data.map lowerChar)))))
  have : normalizeUrlChars (normalizeUrlChars s.data) = normalizeUrlChars s.data := by
    calc normalizeUrlChars (normalizeUrlChars s.data)
        = trimSlashes (stripDotGit (scpRewrite (stripUserAt (stripScheme
            ((normalizeUrlChars s.data).map lowerChar))))) := rfl
      _ = trimSlashes (stripDotGit (scpRewrite (stripUserAt (stripScheme
            (normalizeUrlChars s.data))))) := by rw [hlow]
      _ = trimSlashes (stripDotGit (scpRewrite (stripUserAt (normalizeUrlChars s.data)))) := by
            rw [stripScheme_eq_self_of_colonOk _ hco]
      _ = trimSlashes (stripDotGit (scpRewrite (normalizeUrlChars s.data))) := by rw [h2]
      _ = trimSlashes (stripDotGit (normalizeUrlChars s.data)) := by
            rw [scpRewrite_eq_self_of_colonOk _ hco]
      _ = trimSlashes (normalizeUrlChars s.data) := by rw [h1]
      _ = normalizeUrlChars s.data := htrim
  rw [this]

/-- `normalize_url_idem_amended` at a concrete URL. -/
theorem normalize_url_idem_amended_witness :
    stripDotGit (normalizeUrlChars "https://GitHub.com/User/Repo.git".data)
        = normalizeUrlChars "https://GitHub.com/User/Repo.git".data ∧
    stripUserAt (normalizeUrlChars "https://GitHub.com/User/Repo.git".data)
        = normalizeUrlChars "https://GitHub.com/User/Repo.git".data ∧
    normalize_url (normalize_url "https://GitHub.com/User/Repo.git")
        = normalize_url "https://GitHub.com/User/Repo.git" := by
  refine ⟨by decide, by decide,
    normalize_url_idem_amended "https://GitHub.com/User/Repo.git" (by decide) (by decide)⟩

/-! ## Scanner (claim C5) -/

/-- C5 counterexample: a directory whose `.git/config` exists but is
unreadable IS recorded — as an entry with an empty remotes list — contrary to
the claim that it produces no entry. -/
theorem scan_records_unreadable_config_entry :
    scan_directory [entryUnreadable] = [{ path := "/repos/broken", remotes := [] }] ∧
    scan_directory [entryUnreadable] ≠ [] := by
  constructor
  · rfl
  · decide

/-- C5 (amended): a directory whose `.git/config` file is missing is not
recorded at all; a directory whose config file exists but is unreadable is
recorded with an empty remotes list (exactly as if the file were readable but
contained no `url =` lines). -/
theorem scan_config_recording_amended (p : String) (d g : Bool) :
    scanOne { path := p, isDir := d, hasGitDir := g, config := ConfigFile.missing } = none ∧
    scanOne { path := p, isDir := true, hasGitDir := true, config := ConfigFile.unreadable }
      = some { path := p, remotes := [] } := by
  constructor
  · unfold scanOne
    cases d <;> cases g <;> simp [configExists]
  · rfl

/-! ## Reconciler (claims C6, C7) -/

/-- C6: a remote matched by one local repository stays in the matching
candidate pool — here one remote descriptor is matched by two distinct local
repositories, producing two `Matched` entries naming it, while consumption
only keeps it out of the `RemoteOnly` list. -/
theorem reconcile_remote_not_removed_from_pool :
    (reconcile [localOne, localTwo] [remoteAlpha] "github").matchesList
        = [RepoMatch.Matched localOne remoteAlpha, RepoMatch.Matched localTwo remoteAlpha] ∧
    (reconcile [localOne, localTwo] [remoteAlpha] "github").matched_count = 2 ∧
    (reconcile [localOne, localTwo] [remoteAlpha] "github").remote_only_count = 0 := by
  refine ⟨rfl, rfl, rfl⟩

/-- The `matches` accumulator of the outer loop: the entries pushed so far,
followed by one classification per processed local. -/
theorem foldl_reconcileStep_fst (remote : List RemoteRepo) (locals : List ScannedRepo)
    (acc : List RepoMatch × List Nat) :
    (locals.foldl (reconcileStep remote) acc).1 = acc.1 ++ locals.map (classifyLocal remote) := by
  induction locals generalizing acc with
  | nil => simp
  | cons l t ih =>
    rw [List.foldl_cons, ih]
    cases h : findFirstMatch l remote 0 with
    | none => simp [reconcileStep, classifyLocal, h]
    | some p =>
      cases p with
      | mk idx rr => simp [reconcileStep, classifyLocal, h]

/-- The consumed-index accumulator of the outer loop evolves by
`consumeStep` alone, independent of the `matches` component. -/
theorem foldl_reconcileStep_snd (remote : List RemoteRepo) (locals : List ScannedRepo)
    (acc : List RepoMatch × List Nat) :
    (locals.foldl (reconcileStep remote) acc).2 = locals.foldl (consumeStep remote) acc.2 := by
  induction locals generalizing acc with
  | nil => rfl
  | cons l t ih =>
    rw [List.foldl_cons, List.foldl_cons, ih]
    cases h : findFirstMatch l remote 0 with
    | none => simp [reconcileStep, consumeStep, h]
    | some p =>
      cases p with
      | mk idx rr => simp [reconcileStep, consumeStep, h]

/-- The inner loop finds a match exactly when some remote matches. -/
theorem findFirstMatch_isSome (lr : ScannedRepo) (rs : List RemoteRepo) :
    ∀ i : Nat, (findFirstMatch lr rs i).isSome = rs.any (fun r => urls_match lr r) := by
  induction rs with
  | nil => intro i; rfl
  | cons r t ih =>
    intro i
    by_cases h : urls_match lr r
    · simp [findFirstMatch, h]
    · simp [findFirstMatch, h, ih]

/-- C7: `reconcile` emits exactly one entry per local repository — `Matched`
precisely when some remote's clone or SSH URL normalizes equal to one of its
remote URLs, `LocalOnly` otherwise — followed by exactly one `RemoteOnly`
entry per remote whose index was never consumed; in particular the result
holds `len locals` local-derived entries plus one entry per unconsumed
remote. -/
theorem reconcile_exactly_one_entry_each (locals : List ScannedRepo)
    (remote : List RemoteRepo) (host_label : String) :
    (reconcile locals remote host_label).matchesList
        = locals.map (classifyLocal remote) ++ remoteOnlyEntries locals remote ∧
    (locals.map (classifyLocal remote)).length = locals.length ∧
    (∀ lr : ScannedRepo,
      (∃ rr, classifyLocal remote lr = RepoMatch.Matched lr rr)
        ↔ ∃ rr ∈ remote, urls_match lr rr = true) ∧
    remoteOnlyEntries locals remote
      = remote.enum.filterMap (fun ir =>
          if ir.1 ∈ consumedIndices locals remote then none
          else some (RepoMatch.RemoteOnly ir.2)) := by
  refine ⟨?_, List.length_map _ _, ?_, rfl⟩
  · show (locals.foldl (reconcileStep remote) ([], [])).1
        ++ remote.enum.filterMap (fun ir =>
          if ir.1 ∈ (locals.foldl (reconcileStep remote) ([], [])).2 then none
          else some (RepoMatch.RemoteOnly ir.2))
      = locals.map (classifyLocal remote) ++ remoteOnlyEntries locals remote
    rw [foldl_reconcileStep_fst, foldl_reconcileStep_snd]
    rfl
  · intro lr
    constructor
    · rintro ⟨rr, hcl⟩
      have hs : (findFirstMatch lr remote 0).isSome = true := by
        cases h : findFirstMatch lr remote 0 with
        | none =>
          rw [classifyLocal, h] at hcl
          exact absurd hcl (by intro hc; exact RepoMatch.noConfusion hc)
        | some p => rfl
      rw [findFirstMatch_isSome] at hs
      simpa using hs
    · rintro ⟨rr, hmem, hm⟩
      have hs : (findFirstMatch lr remote 0).isSome = true := by
        rw [findFirstMatch_isSome]
        exact List.any_eq_true.mpr ⟨rr, hmem, hm⟩
      cases h : findFirstMatch lr remote 0 with
      | none => rw [h] at hs; exact absurd hs (by decide)
      | some p =>
        cases p with
        | mk idx rr' => exact ⟨rr', by rw [classifyLocal, h]⟩

/-! ## Fork synchronizer (claims C3, C8, C9, C10) -/

/-- C3 counterexample: a dry run is NOT always `Skipped` — when the clone
exists and the (read-only) `git remote` listing fails, the dry run returns
`Failed`. -/
theorem dry_run_failed_on_remote_list_error :
    (sync_fork demoRepo "https://up" "/base" MergeStrategy.FastForward true
        envRemoteListFails).1.record.status = SyncStatus.Failed ∧
    SyncStatus.Failed ≠ SyncStatus.Skipped := by
  refine ⟨rfl, by decide⟩

/-- C9 counterexample: in a live run a failing `rev-list --count` is NOT
treated as 0 — the error propagates and fails the whole run. -/
theorem rev_list_failure_fails_live_run :
    (sync_fork demoRepo "https://up" "/base" MergeStrategy.FastForward false
        envRevListFails).1.record.status = SyncStatus.Failed ∧
    (sync_fork demoRepo "https://up" "/base" MergeStrategy.FastForward false
        envRevListFails).1.record.errors ≠ [] := by
  refine ⟨rfl, by decide⟩

/-- C3 (amended): a dry run never invokes a clone, fetch, merge (of any
strategy) or push; when the clone is absent, or present with a successful
remote listing, the status is `Skipped` and `commits_transferred` is the
best-effort behind count (0 when it cannot be computed); when the clone is
present and the remote listing fails, the status is `Failed`. -/
theorem sync_fork_dry_run_amended (repo : Repo) (url base : String)
    (strategy : MergeStrategy) (env : GitEnv) :
    (GitOp.clone ∉ (sync_fork repo url base strategy true env).2 ∧
      GitOp.fetch ∉ (sync_fork repo url base strategy true env).2 ∧
      GitOp.mergeFf ∉ (sync_fork repo url base strategy true env).2 ∧
      GitOp.merge ∉ (sync_fork repo url base strategy true env).2 ∧
      GitOp.rebase ∉ (sync_fork repo url base strategy true env).2 ∧
      GitOp.resetHard ∉ (sync_fork repo url base strategy true env).2 ∧
      GitOp.push ∉ (sync_fork repo url base strategy true env).2) ∧
    (match env.gitDirExists, remoteListOp env with
      | false, _ =>
        (sync_fork repo url base strategy true env).1.record.status = SyncStatus.Skipped ∧
        (sync_fork repo url base strategy true env).1.record.commits_transferred = 0
      | true, Except.ok _ =>
        (sync_fork repo url base strategy true env).1.record.status = SyncStatus.Skipped ∧
        (sync_fork repo url base strategy true env).1.record.commits_transferred
          = dryRunBehind env repo
      | true, Except.error _ =>
        (sync_fork repo url base strategy true env).1.record.status = SyncStatus.Failed) := by
  cases hg : env.gitDirExists with
  | false =>
    refine ⟨⟨?_, ?_, ?_, ?_, ?_, ?_, ?_⟩, ?_⟩ <;>
      simp [sync_fork, sync_fork_inner, hg]
  | true =>
    cases hr : remoteListOp env with
    | error e =>
      refine ⟨⟨?_, ?_, ?_, ?_, ?_, ?_, ?_⟩, ?_⟩ <;>
        simp [sync_fork, sync_fork_inner, syncAfterClone, hg, hr]
    | ok rs =>
      cases hc : rs.contains "upstream" <;>
        refine ⟨⟨?_, ?_, ?_, ?_, ?_, ?_, ?_⟩, ?_⟩ <;>
          simp [sync_fork, sync_fork_inner, syncAfterClone, syncAfterRemote,
            dryRunBehind, hg, hr, hc]

/-- C8: in a live run whose every step up to the divergence computation
succeeds and whose behind count is 0, the result is `Success` with 0 commits
transferred and `branches_synced = 1`, and no checkout, merge-strategy, or
push operation is invoked. -/
theorem sync_fork_live_behind_zero (repo : Repo) (url base : String)
    (strategy : MergeStrategy) (env : GitEnv) (rs : List String)
    (hclone : env.gitDirExists = true ∨ cloneOp env repo.clone_url = Except.ok ())
    (hrl : remoteListOp env = Except.ok rs)
    (hup : rs.contains "upstream" = true ∨ remoteAddOp env "upstream" url = Except.ok ())
    (hfetch : fetchOp env = Except.ok ())
    (hrev : rev_list_count env repo.default_branch ("upstream/" ++ repo.default_branch)
      = Except.ok 0) :
    (sync_fork repo url base strategy false env).1.record.status = SyncStatus.Success ∧
    (sync_fork repo url base strategy false env).1.record.commits_transferred = 0 ∧
    (sync_fork repo url base strategy false env).1.record.branches_synced = 1 ∧
    GitOp.checkout ∉ (sync_fork repo url base strategy false env).2 ∧
    GitOp.mergeFf ∉ (sync_fork repo url base strategy false env).2 ∧
    GitOp.merge ∉ (sync_fork repo url base strategy false env).2 ∧
    GitOp.rebase ∉ (sync_fork repo url base strategy false env).2 ∧
    GitOp.resetHard ∉ (sync_fork repo url base strategy false env).2 ∧
    GitOp.push ∉ (sync_fork repo url base strategy false env).2 := by
  have hmemOrAdd : ("upstream" ∈ rs) ∨
      (("upstream" ∉ rs) ∧ remoteAddOp env "upstream" url = Except.ok ()) := by
    by_cases hmem : "upstream" ∈ rs
    · exact Or.inl hmem
    · rcases hup with hup | hup
      · exact absurd (by simpa using hup) hmem
      · exact Or.inr ⟨hmem, hup⟩
  cases hg : env.gitDirExists with
  | false =>
    rcases hclone with hclone | hclone
    · rw [hg] at hclone
      exact absurd hclone (by decide)
    · rcases hmemOrAdd with hmem | ⟨hmem, hadd⟩
      · simp [sync_fork, sync_fork_inner, syncAfterClone, syncAfterRemote,
          hg, hclone, hrl, hmem, hfetch, hrev]
      · simp [sync_fork, sync_fork_inner, syncAfterClone, syncAfterRemote,
          hg, hclone, hrl, hmem, hadd, hfetch, hrev]
  | true =>
    rcases hmemOrAdd with hmem | ⟨hmem, hadd⟩
    · simp [sync_fork, sync_fork_inner, syncAfterClone, syncAfterRemote,
        hg, hrl, hmem, hfetch, hrev]
    · simp [sync_fork, sync_fork_inner, syncAfterClone, syncAfterRemote,
        hg, hrl, hmem, hadd, hfetch, hrev]

/-- `sync_fork_live_behind_zero` at a concrete environment. -/
theorem sync_fork_live_behind_zero_witness :
    (sync_fork demoRepo "https://up" "/base" MergeStrategy.Merge false envBase).1.record.status
        = SyncStatus.Success ∧
    GitOp.push ∉ (sync_fork demoRepo "https://up" "/base" MergeStrategy.Merge false envBase).2 := by
  have h := sync_fork_live_behind_zero demoRepo "https://up" "/base" MergeStrategy.Merge envBase
    ["origin", "upstream"] (Or.inl (by decide)) (by decide) (Or.inl (by decide))
    (by decide) (by decide)
  exact ⟨h.1, h.2.2.2.2.2.2.2.2⟩

/-- C9 (amended): non-numeric stdout of a successful `rev-list --count` is
treated as a count of 0 in both modes (dry-run and live, the latter on every
route to the divergence computation — existing clone or fresh clone,
`upstream` already configured or freshly added); a failing `rev-list --count`
subprocess is treated as 0 only by a dry run (`unwrap_or(0)`), whereas in a
live run the failure fails the whole run on every such route.  A dry run
reaches the rev-list exactly when the clone exists and the remote listing
succeeds, which the first two parts assume. -/
theorem rev_list_count_amended (repo : Repo) (url base : String)
    (strategy : MergeStrategy) (env : GitEnv) (rs : List String) (err : GitrError)
    (out : GitOutput) :
    (env.gitDirExists = true → remoteListOp env = Except.ok rs →
      rev_list_count env repo.default_branch ("upstream/" ++ repo.default_branch)
          = Except.error err →
      (sync_fork repo url base strategy true env).1.record.status = SyncStatus.Skipped ∧
      (sync_fork repo url base strategy true env).1.record.commits_transferred = 0) ∧
    (env.gitDirExists = true → remoteListOp env = Except.ok rs →
      env.revListOut = Except.ok out → out.success = true →
      parseU32 (trimStr out.stdout) = none →
      (sync_fork repo url base strategy true env).1.record.status = SyncStatus.Skipped ∧
      (sync_fork repo url base strategy true env).1.record.commits_transferred = 0) ∧
    ((env.gitDirExists = true ∨ cloneOp env repo.clone_url = Except.ok ()) →
      remoteListOp env = Except.ok rs →
      (rs.contains "upstream" = true ∨ remoteAddOp env "upstream" url = Except.ok ()) →
      fetchOp env = Except.ok () →
      env.revListOut = Except.ok out → out.success = true →
      parseU32 (trimStr out.stdout) = none →
      (sync_fork repo url base strategy false env).1.record.status = SyncStatus.Success ∧
      (sync_fork repo url base strategy false env).1.record.commits_transferred = 0) ∧
    ((env.gitDirExists = true ∨ cloneOp env repo.clone_url = Except.ok ()) →
      remoteListOp env = Except.ok rs →
      (rs.contains "upstream" = true ∨ remoteAddOp env "upstream" url = Except.ok ()) →
      fetchOp env = Except.ok () →
      rev_list_count env repo.default_branch ("upstream/" ++ repo.default_branch)
          = Except.error err →
      (sync_fork repo url base strategy false env).1.record.status = SyncStatus.Failed ∧
      (sync_fork repo url base strategy false env).1.record.errors ≠ []) := by
  refine ⟨?_, ?_, ?_, ?_⟩
  · intro hg hrl hrev
    cases hc : rs.contains "upstream" <;>
      simp [sync_fork, sync_fork_inner, syncAfterClone, syncAfterRemote,
        hg, hrl, hc, hrev]
  · intro hg hrl hout hsucc hparse
    have hrev0 : rev_list_count env repo.default_branch
        ("upstream/" ++ repo.default_branch) = Except.ok 0 := by
      simp [rev_list_count, gitOk, hout, hsucc, Except.map, hparse]
    cases hc : rs.contains "upstream" <;>
      simp [sync_fork, sync_fork_inner, syncAfterClone, syncAfterRemote,
        hg, hrl, hc, hrev0]
  · intro hclone hrl hup hfetch hout hsucc hparse
    have hrev0 : rev_list_count env repo.default_branch
        ("upstream/" ++ repo.default_branch) = Except.ok 0 := by
      simp [rev_list_count, gitOk, hout, hsucc, Except.map, hparse]
    have hmemOrAdd : ("upstream" ∈ rs) ∨
        (("upstream" ∉ rs) ∧ remoteAddOp env "upstream" url = Except.ok ()) := by
      by_cases hmem : "upstream" ∈ rs
      · exact Or.inl hmem
      · rcases hup with hup | hup
        · exact absurd (by simpa using hup) hmem
        · exact Or.inr ⟨hmem, hup⟩
    cases hg : env.gitDirExists with
    | false =>
      rcases hclone with hclone | hclone
      · rw [hg] at hclone
        exact absurd hclone (by decide)
      · rcases hmemOrAdd with hmem | ⟨hmem, hadd⟩
        · simp [sync_fork, sync_fork_inner, syncAfterClone, syncAfterRemote,
            hg, hclone, hrl, hmem, hfetch, hrev0]
        · simp [sync_fork, sync_fork_inner, syncAfterClone, syncAfterRemote,
            hg, hclone, hrl, hmem, hadd, hfetch, hrev0]
    | true =>
      rcases hmemOrAdd with hmem | ⟨hmem, hadd⟩
      · simp [sync_fork, sync_fork_inner, syncAfterClone, syncAfterRemote,
          hg, hrl, hmem, hfetch, hrev0]
      · simp [sync_fork, sync_fork_inner, syncAfterClone, syncAfterRemote,
          hg, hrl, hmem, hadd, hfetch, hrev0]
  · intro hclone hrl hup hfetch hrev
    have hmemOrAdd : ("upstream" ∈ rs) ∨
        (("upstream" ∉ rs) ∧ remoteAddOp env "upstream" url = Except.ok ()) := by
      by_cases hmem : "upstream" ∈ rs
      · exact Or.inl hmem
      · rcases hup with hup | hup
        · exact absurd (by simpa using hup) hmem
        · exact Or.inr ⟨hmem, hup⟩
    cases hg : env.gitDirExists with
    | false =>
      rcases hclone with hclone | hclone
      · rw [hg] at hclone
        exact absurd hclone (by decide)
      · rcases hmemOrAdd with hmem | ⟨hmem, hadd⟩
        · simp [sync_fork, sync_fork_inner, syncAfterClone, syncAfterRemote,
            hg, hclone, hrl, hmem, hfetch, hrev]
        · simp [sync_fork, sync_fork_inner, syncAfterClone, syncAfterRemote,
            hg, hclone, hrl, hmem, hadd, hfetch, hrev]
    | true =>
      rcases hmemOrAdd with hmem | ⟨hmem, hadd⟩
      · simp [sync_fork, sync_fork_inner, syncAfterClone, syncAfterRemote,
          hg, hrl, hmem, hfetch, hrev]
      · simp [sync_fork, sync_fork_inner, syncAfterClone, syncAfterRemote,
          hg, hrl, hmem, hadd, hfetch, hrev]

/-- `rev_list_count_amended` at concrete environments, exercising all four
parts: a dry run whose rev-list fails is `Skipped` with count 0, a dry run
whose rev-list prints garbage is `Skipped` with count 0, a live run whose
rev-list prints garbage is `Success` with count 0, and a live run whose
rev-list fails is `Failed` with a non-empty error list. -/
theorem rev_list_count_amended_witness :
    ((sync_fork demoRepo "https://up" "/base" MergeStrategy.Merge true
        envRevListFails).1.record.status = SyncStatus.Skipped ∧
      (sync_fork demoRepo "https://up" "/base" MergeStrategy.Merge true
        envRevListFails).1.record.commits_transferred = 0) ∧
    ((sync_fork demoRepo "https://up" "/base" MergeStrategy.Merge true
        envRevListGarbage).1.record.status = SyncStatus.Skipped ∧
      (sync_fork demoRepo "https://up" "/base" MergeStrategy.Merge true
        envRevListGarbage).1.record.commits_transferred = 0) ∧
    ((sync_fork demoRepo "https://up" "/base" MergeStrategy.Merge false
        envRevListGarbage).1.record.status = SyncStatus.Success ∧
      (sync_fork demoRepo "https://up" "/base" MergeStrategy.Merge false
        envRevListGarbage).1.record.commits_transferred = 0) ∧
    ((sync_fork demoRepo "https://up" "/base" MergeStrategy.Merge false
        envRevListFails).1.record.status = SyncStatus.Failed ∧
      (sync_fork demoRepo "https://up" "/base" MergeStrategy.Merge false
        envRevListFails).1.record.errors ≠ []) := by
  refine ⟨?_, ?_, ?_, ?_⟩
  · exact (rev_list_count_amended demoRepo "https://up" "/base" MergeStrategy.Merge
      envRevListFails ["origin", "upstream"]
      (GitrError.GitError "git rev-list --count main..upstream/main failed: bad revision")
      (okOut "")).1 (by decide) (by decide) (by decide)
  · exact (rev_list_count_amended demoRepo "https://up" "/base" MergeStrategy.Merge
      envRevListGarbage ["origin", "upstream"] (GitrError.GitError "")
      (okOut "not-a-number")).2.1 (by decide) (by decide) (by decide) (by decide)
      (by decide)
  · exact (rev_list_count_amended demoRepo "https://up" "/base" MergeStrategy.Merge
      envRevListGarbage ["origin", "upstream"] (GitrError.GitError "")
      (okOut "not-a-number")).2.2.1 (Or.inl (by decide)) (by decide)
      (Or.inl (by decide)) (by decide) (by decide) (by decide) (by decide)
  · exact (rev_list_count_amended demoRepo "https://up" "/base" MergeStrategy.Merge
      envRevListFails ["origin", "upstream"]
      (GitrError.GitError "git rev-list --count main..upstream/main failed: bad revision")
      (okOut "")).2.2.2 (Or.inl (by decide)) (by decide) (Or.inl (by decide))
      (by decide) (by decide)

/-- C10: a `sync_fork` result's status is never `PartialSuccess`, and it is
`Failed` exactly when the error list is non-empty, which is also exactly when
`branches_failed = 1`. -/
theorem sync_fork_status_invariant (repo : Repo) (url base : String)
    (strategy : MergeStrategy) (dry_run : Bool) (env : GitEnv) :
    (sync_fork repo url base strategy dry_run env).1.record.status ≠ SyncStatus.PartialSuccess ∧
    ((sync_fork repo url base strategy dry_run env).1.record.status = SyncStatus.Failed ↔
      ((sync_fork repo url base strategy dry_run env).1.record.errors ≠ [] ∧
        (sync_fork repo url base strategy dry_run env).1.record.branches_failed = 1)) := by
  rcases h : (sync_fork_inner repo url base strategy dry_run env).1 with e | commits
  · simp [sync_fork, h, SyncRecord.new]
  · cases dry_run <;> simp [sync_fork, h, SyncRecord.new]

/-! ## Sync engine results (claim C2) -/

/-- Folding the `if let Ok` collection loop over handles that are all `Ok`
appends every payload in order. -/
theorem collect_ok_foldl {α β : Type} (f : α → β) (l : List α) (acc : List β) :
    (l.map (fun a => (Except.ok (f a) : Except Unit β))).foldl collectJoin acc
      = acc ++ l.map f := by
  induction l generalizing acc with
  | nil => simp
  | cons a t ih => simp [collectJoin, ih, List.append_assoc]

/-- C2: `sync_all_forks` returns exactly one result per input pair, in input
order, each carrying the full name of its own input repository. -/
theorem sync_all_forks_one_result_per_pair (concurrency : Nat)
    (repos : List (Repo × String)) (base : String) (strategy : MergeStrategy)
    (dry_run : Bool) (envOf : Repo × String → GitEnv) :
    sync_all_forks concurrency repos base strategy dry_run envOf
        = repos.map (fun pr => (sync_fork pr.1 pr.2 base strategy dry_run (envOf pr)).1) ∧
    (sync_all_forks concurrency repos base strategy dry_run envOf).length = repos.length ∧
    ∀ i : Nat,
      ((sync_all_forks concurrency repos base strategy dry_run envOf)[i]?).map
          (fun r => r.repo_full_name)
        = (repos[i]?).map (fun pr => pr.1.full_name) := by
  have hmain : sync_all_forks concurrency repos base strategy dry_run envOf
      = repos.map (fun pr => (sync_fork pr.1 pr.2 base strategy dry_run (envOf pr)).1) := by
    unfold sync_all_forks
    simpa using collect_ok_foldl
      (fun pr : Repo × String => (sync_fork pr.1 pr.2 base strategy dry_run (envOf pr)).1)
      repos []
  refine ⟨hmain, ?_, ?_⟩
  · rw [hmain, List.length_map]
  · intro i
    rw [hmain, List.getElem?_map]
    cases h : repos[i]? with
    | none => rfl
    | some pr => simp [sync_fork]

/-! ## Sync engine concurrency (claim C1) -/

/-- Had each running unit held one permit, legality under limit `limit` would
bound the number of simultaneously active units by `limit` — this is the
bound the engine's semaphore was built to enforce. -/
theorem legalSchedule_one_permit_bounds {n : Nat} (limit : Nat)
    (evs : List (SchedEvent n)) (h : legalSchedule 1 limit evs) :
    ∀ k ∈ List.range (evs.length + 1), activeUnits (evs.take k) ≤ limit := by
  intro k hk
  have h2 := h.2 k hk
  simpa using h2

/-- `legalSchedule_one_permit_bounds` at a concrete schedule. -/
theorem legalSchedule_one_permit_bounds_witness :
    legalSchedule 1 1 [SchedEvent.start (0 : Fin 1), SchedEvent.finish 0] ∧
    ∀ k ∈ List.range 3,
      activeUnits ([SchedEvent.start (0 : Fin 1), SchedEvent.finish 0].take k) ≤ 1 := by
  refine ⟨by decide, ?_⟩
  exact legalSchedule_one_permit_bounds 1
    [SchedEvent.start (0 : Fin 1), SchedEvent.finish 0] (by decide)

/-- C1: with the unit bodies as written (`acquire_owned()` never awaited, so
0 permits held per running unit), the semaphore admits a schedule of 5 units
under concurrency limit 2 in which all 5 are active at once: the limit is
not enforced. -/
theorem engine_semaphore_never_limits :
    legalSchedule enginePermitsPerUnit 2 evsAllAtOnce ∧
    maxActive evsAllAtOnce = 5 ∧ 2 < 5 := by
  refine ⟨by decide, by decide, by decide⟩

end Gitr
